import Mathlib

/-!
Verification development for the bvh-viewer computational core
(src/script.js): BVH hierarchy/motion parsing, per-frame pose
evaluation, and two-clip stitching (alignment + blending).

The JavaScript source is shallowly embedded: numbers become real
numbers, JS arrays become lists, in-place mutation becomes explicit
state passing, and thrown exceptions become `Except`.  The THREE.js
library calls used by the source (Quaternion.setFromEuler,
Euler.setFromQuaternion, Vector3.applyQuaternion, Quaternion.slerp,
Quaternion.invert = conjugate, MathUtils.degToRad / radToDeg / clamp)
are embedded from the THREE.js implementations they name.  A THREE
quaternion (w, x, y, z) is represented as a Mathlib quaternion with
(re, imI, imJ, imK) = (w, x, y, z); the Hamilton product of
Quaternion.multiplyQuaternions coincides with Mathlib multiplication
under this mapping, and THREE invert() is the conjugate `star`.
-/

open scoped Classical

noncomputable section

/-- Real quaternions, standing for THREE.Quaternion values. -/
abbrev Quat := Quaternion ℝ

/-- A THREE.Vector3 value. -/
structure Vec3 where
  x : ℝ
  y : ℝ
  z : ℝ

/-- THREE.MathUtils.degToRad, bound as `rad` in the source. -/
def rad (deg : ℝ) : ℝ := deg * (Real.pi / 180)

/-- THREE.MathUtils.radToDeg. -/
def radToDeg (r : ℝ) : ℝ := r * (180 / Real.pi)

/-- THREE.MathUtils.clamp value min max. -/
def clamp (v lo hi : ℝ) : ℝ := max lo (min hi v)

/-- Math.atan2 y x, as the argument of the complex number x + y i. -/
def atan2 (y x : ℝ) : ℝ := Complex.arg ⟨x, y⟩

/-- Number.EPSILON, the constant used by THREE.Quaternion.slerp. -/
def numberEPSILON : ℝ := 1 / 2 ^ 52

/-- The six Euler axis orders THREE.js understands. -/
inductive EulerOrder where
  | XYZ | YXZ | ZXY | ZYX | YZX | XZY
deriving DecidableEq

/-- Interpretation of a channel-order character list (the string built by
`joint.channel_order.join("")` in the source) as a THREE Euler order.
A string that is not one of the six valid orders yields `none`; THREE
then warns and leaves the freshly constructed object unchanged. -/
def parseOrder : List Char → Option EulerOrder
  | ['X', 'Y', 'Z'] => some .XYZ
  | ['Y', 'X', 'Z'] => some .YXZ
  | ['Z', 'X', 'Y'] => some .ZXY
  | ['Z', 'Y', 'X'] => some .ZYX
  | ['Y', 'Z', 'X'] => some .YZX
  | ['X', 'Z', 'Y'] => some .XZY
  | _ => none

/-- THREE.Quaternion.setFromEuler on angles x y z (radians) with a valid
axis order: the per-order component formulas of the THREE source. -/
def setFromEulerO (x y z : ℝ) : EulerOrder → Quat :=
  let c1 := Real.cos (x / 2)
  let c2 := Real.cos (y / 2)
  let c3 := Real.cos (z / 2)
  let s1 := Real.sin (x / 2)
  let s2 := Real.sin (y / 2)
  let s3 := Real.sin (z / 2)
  fun o =>
    match o with
    | .XYZ =>
        ⟨c1 * c2 * c3 - s1 * s2 * s3,
         s1 * c2 * c3 + c1 * s2 * s3,
         c1 * s2 * c3 - s1 * c2 * s3,
         c1 * c2 * s3 + s1 * s2 * c3⟩
    | .YXZ =>
        ⟨c1 * c2 * c3 + s1 * s2 * s3,
         s1 * c2 * c3 + c1 * s2 * s3,
         c1 * s2 * c3 - s1 * c2 * s3,
         c1 * c2 * s3 - s1 * s2 * c3⟩
    | .ZXY =>
        ⟨c1 * c2 * c3 - s1 * s2 * s3,
         s1 * c2 * c3 - c1 * s2 * s3,
         c1 * s2 * c3 + s1 * c2 * s3,
         c1 * c2 * s3 + s1 * s2 * c3⟩
    | .ZYX =>
        ⟨c1 * c2 * c3 + s1 * s2 * s3,
         s1 * c2 * c3 - c1 * s2 * s3,
         c1 * s2 * c3 + s1 * c2 * s3,
         c1 * c2 * s3 - s1 * s2 * c3⟩
    | .YZX =>
        ⟨c1 * c2 * c3 - s1 * s2 * s3,
         s1 * c2 * c3 + c1 * s2 * s3,
         c1 * s2 * c3 + s1 * c2 * s3,
         c1 * c2 * s3 - s1 * s2 * c3⟩
    | .XZY =>
        ⟨c1 * c2 * c3 + s1 * s2 * s3,
         s1 * c2 * c3 - c1 * s2 * s3,
         c1 * s2 * c3 - s1 * c2 * s3,
         c1 * c2 * s3 + s1 * s2 * c3⟩

/-- `new THREE.Quaternion().setFromEuler(new THREE.Euler(x, y, z, order))`
with `order` given as a character list: an unknown order keeps the fresh
identity quaternion. -/
def setFromEulerStr (x y z : ℝ) (order : List Char) : Quat :=
  match parseOrder order with
  | some o => setFromEulerO x y z o
  | none => ⟨1, 0, 0, 0⟩

/-- THREE.Euler.setFromQuaternion: build the rotation matrix of the
quaternion (Matrix4.makeRotationFromQuaternion) and extract Euler angles
per Euler.setFromRotationMatrix.  Returns the (x, y, z) angle triple. -/
def eulerFromQuatO (q : Quat) : EulerOrder → Vec3 :=
  let x := q.imI
  let y := q.imJ
  let z := q.imK
  let w := q.re
  let x2 := x + x
  let y2 := y + y
  let z2 := z + z
  let xx := x * x2
  let xy := x * y2
  let xz := x * z2
  let yy := y * y2
  let yz := y * z2
  let zz := z * z2
  let wx := w * x2
  let wy := w * y2
  let wz := w * z2
  let m11 := 1 - (yy + zz)
  let m12 := xy - wz
  let m13 := xz + wy
  let m21 := xy + wz
  let m22 := 1 - (xx + zz)
  let m23 := yz - wx
  let m31 := xz - wy
  let m32 := yz + wx
  let m33 := 1 - (xx + yy)
  fun o =>
    match o with
    | .XYZ =>
        if |m13| < 0.9999999 then
          ⟨atan2 (-m23) m33, Real.arcsin (clamp m13 (-1) 1), atan2 (-m12) m11⟩
        else
          ⟨atan2 m32 m22, Real.arcsin (clamp m13 (-1) 1), 0⟩
    | .YXZ =>
        if |m23| < 0.9999999 then
          ⟨Real.arcsin (-clamp m23 (-1) 1), atan2 m13 m33, atan2 m21 m22⟩
        else
          ⟨Real.arcsin (-clamp m23 (-1) 1), atan2 (-m31) m11, 0⟩
    | .ZXY =>
        if |m32| < 0.9999999 then
          ⟨Real.arcsin (clamp m32 (-1) 1), atan2 (-m31) m33, atan2 (-m12) m22⟩
        else
          ⟨Real.arcsin (clamp m32 (-1) 1), 0, atan2 m21 m11⟩
    | .ZYX =>
        if |m31| < 0.9999999 then
          ⟨atan2 m32 m33, Real.arcsin (-clamp m31 (-1) 1), atan2 m21 m11⟩
        else
          ⟨0, Real.arcsin (-clamp m31 (-1) 1), atan2 (-m12) m22⟩
    | .YZX =>
        if |m21| < 0.9999999 then
          ⟨atan2 (-m23) m22, atan2 (-m31) m11, Real.arcsin (clamp m21 (-1) 1)⟩
        else
          ⟨0, atan2 m13 m33, Real.arcsin (clamp m21 (-1) 1)⟩
    | .XZY =>
        if |m12| < 0.9999999 then
          ⟨atan2 m32 m22, atan2 m13 m11, Real.arcsin (-clamp m12 (-1) 1)⟩
        else
          ⟨atan2 (-m23) m33, 0, Real.arcsin (-clamp m12 (-1) 1)⟩

/-- `new THREE.Euler().setFromQuaternion(q, orderString)`: an unknown
order string warns and keeps the fresh all-zero angles. -/
def eulerFromQuatStr (q : Quat) (order : List Char) : Vec3 :=
  match parseOrder order with
  | some o => eulerFromQuatO q o
  | none => ⟨0, 0, 0⟩

/-- THREE.Vector3.subVectors. -/
def subVectors (a b : Vec3) : Vec3 := ⟨a.x - b.x, a.y - b.y, a.z - b.z⟩

/-- THREE.Vector3.applyQuaternion: rotate the vector by the (assumed
unit) quaternion, exactly as the THREE source computes it. -/
def applyQuaternion (v : Vec3) (q : Quat) : Vec3 :=
  let vx := v.x
  let vy := v.y
  let vz := v.z
  let qx := q.imI
  let qy := q.imJ
  let qz := q.imK
  let qw := q.re
  let tx := 2 * (qy * vz - qz * vy)
  let ty := 2 * (qz * vx - qx * vz)
  let tz := 2 * (qx * vy - qy * vx)
  ⟨vx + qw * tx + qy * tz - qz * ty,
   vy + qw * ty + qz * tx - qx * tz,
   vz + qw * tz + qx * ty - qy * tx⟩

/-- THREE.Quaternion.normalize: divide by the length, or reset to the
identity when the length is zero. -/
def normalizeQ (q : Quat) : Quat :=
  let l := Real.sqrt (q.imI * q.imI + q.imJ * q.imJ + q.imK * q.imK + q.re * q.re)
  if l = 0 then ⟨1, 0, 0, 0⟩
  else ⟨q.re * (1 / l), q.imI * (1 / l), q.imJ * (1 / l), q.imK * (1 / l)⟩

/-- THREE.Quaternion.slerp on values: `qa.clone().slerp(qb, t)`. -/
def slerpQ (qa qb : Quat) (t : ℝ) : Quat :=
  if t = 0 then qa
  else if t = 1 then qb
  else
    let x := qa.imI
    let y := qa.imJ
    let z := qa.imK
    let w := qa.re
    let ch0 := w * qb.re + x * qb.imI + y * qb.imJ + z * qb.imK
    let target : Quat := if ch0 < 0 then -qb else qb
    let cosHalfTheta := if ch0 < 0 then -ch0 else ch0
    if 1 ≤ cosHalfTheta then qa
    else
      let sqrSinHalfTheta := 1 - cosHalfTheta * cosHalfTheta
      if sqrSinHalfTheta ≤ numberEPSILON then
        let s := 1 - t
        normalizeQ ⟨s * w + t * target.re, s * x + t * target.imI,
                    s * y + t * target.imJ, s * z + t * target.imK⟩
      else
        let sinHalfTheta := Real.sqrt sqrSinHalfTheta
        let halfTheta := atan2 sinHalfTheta cosHalfTheta
        let ratioA := Real.sin ((1 - t) * halfTheta) / sinHalfTheta
        let ratioB := Real.sin (t * halfTheta) / sinHalfTheta
        ⟨w * ratioA + target.re * ratioB, x * ratioA + target.imI * ratioB,
         y * ratioA + target.imJ * ratioB, z * ratioA + target.imK * ratioB⟩

/-! ## The Joint model (class Joint, script.js 130-161)

A joint tree node.  The JS object fields `name`, `offset`, `channels`,
`channel_order`, `length`, `position`, `quaternion`, `children` are
carried; the `rotation` scratch field is written nowhere in the core
(the evaluator uses a fresh local), and the `parent` back-reference is
a non-owning pointer used only by the excluded renderer, so neither is
represented in the functional tree. -/

inductive Joint where
  | node (name : String) (offset : Vec3) (channels : List String)
      (channel_order : List Char) (length : ℝ) (position : Vec3)
      (quaternion : Quat) (children : List Joint)

def Joint.name : Joint → String
  | .node n _ _ _ _ _ _ _ => n

def Joint.offset : Joint → Vec3
  | .node _ o _ _ _ _ _ _ => o

def Joint.channels : Joint → List String
  | .node _ _ chs _ _ _ _ _ => chs

def Joint.channel_order : Joint → List Char
  | .node _ _ _ co _ _ _ _ => co

def Joint.len : Joint → ℝ
  | .node _ _ _ _ l _ _ _ => l

def Joint.position : Joint → Vec3
  | .node _ _ _ _ _ p _ _ => p

def Joint.quaternion : Joint → Quat
  | .node _ _ _ _ _ _ q _ => q

def Joint.children : Joint → List Joint
  | .node _ _ _ _ _ _ _ cs => cs

/-- `new Joint(name)`: default offset (0,0,0), no channels, empty
channel order, zero length, position cloned from the default offset,
identity quaternion, no children. -/
def newJoint (name : String) : Joint :=
  .node name ⟨0, 0, 0⟩ [] [] 0 ⟨0, 0, 0⟩ ⟨1, 0, 0, 0⟩ []

/-- `joint.offset.set(...)` followed by `joint.updateLength()`. -/
def Joint.setOffset : Joint → Vec3 → Joint
  | .node n _ chs co _ p q cs, off =>
      .node n off chs co (Real.sqrt (off.x ^ 2 + off.y ^ 2 + off.z ^ 2)) p q cs

/-- The CHANNELS assignment: store the channel names and the derived
channel order together. -/
def Joint.setChannels : Joint → List String → List Char → Joint
  | .node n o _ _ l p q cs, chs, co => .node n o chs co l p q cs

/-- `joint.addChild(child)`: append to the owned child list (the JS
parent back-reference assignment has no functional counterpart). -/
def Joint.addChild : Joint → Joint → Joint
  | .node n o chs co l p q cs, child => .node n o chs co l p q (cs ++ [child])

mutual

/-- All joints of a tree: the root followed by the joints of each child
subtree, in document order. -/
def jointsOf (j : Joint) : List Joint :=
  match j with
  | .node _ _ _ _ _ _ _ cs => j :: jointsOfList cs

def jointsOfList : List Joint → List Joint
  | [] => []
  | j :: js => jointsOf j ++ jointsOfList js

end

mutual

/-- The total channel count of a skeleton: the sum of the declared
channel-list lengths over all joints (the spec-level column count of a
well-formed frame matrix). -/
def totalChannels (j : Joint) : ℕ :=
  match j with
  | .node _ _ chs _ _ _ _ cs => chs.length + totalChannelsList cs

def totalChannelsList : List Joint → ℕ
  | [] => 0
  | j :: js => totalChannels j + totalChannelsList js

end

/-! ## Parsers (script.js 306-409) -/

/-- Parse errors.  The source throws plain `Error` objects; per the
spec error taxonomy all parser throws (missing section keyword, bad
block nesting, unexpected end of input) are format errors. -/
inductive Err where
  | formatError (msg : String)
deriving DecidableEq

/-- Split a character list at every separator satisfying the predicate
(keeping empty pieces, as JS `split` does between adjacent separators). -/
def splitWhen (p : Char → Bool) : List Char → List (List Char)
  | [] => [[]]
  | c :: rest =>
    let r := splitWhen p rest
    if p c then [] :: r else (c :: r.headD []) :: r.tail

/-- JS `String.prototype.trim`: drop whitespace from both ends. -/
def trimChars (cs : List Char) : List Char :=
  (((cs.dropWhile Char.isWhitespace).reverse).dropWhile Char.isWhitespace).reverse

def jsTrim (s : String) : String := .mk (trimChars s.toList)

/-- JS `s.startsWith(p)`. -/
def jsStartsWith (s p : String) : Bool := p.toList.isPrefixOf s.toList

/-- `line.split(/\s+/)` on an already-trimmed line: whitespace-run
separated tokens. -/
def splitWS (s : String) : List String :=
  ((splitWhen (fun c => c.isWhitespace) s.toList).map String.mk).filter (fun t => t ≠ "")

/-- `ch[0]` on a non-empty string (every token produced by `splitWS` is
non-empty, so the default is never consulted). -/
def firstCharD (s : String) : Char := s.toList.headD ' '

/-- `list.slice(-3)`: the last up-to-three elements. -/
def lastThree (l : List α) : List α := l.drop (l.length - 3)

/-- Digit-string accumulator for the numeric token models. -/
def natOfDigits : List Char → ℕ → ℕ
  | [], acc => acc
  | c :: cs, acc => natOfDigits cs (acc * 10 + (c.toNat - 48))

/-- Model of JS `parseFloat` on the numeric tokens of a BVH file:
an optional sign, an integer part and an optional decimal fraction,
evaluated exactly over the rationals.  Exponent forms and the NaN
result on unparsable tokens are not modeled; no claim depends on the
numeric value of a malformed token. -/
def jsParseFloatQ (s : String) : ℚ :=
  let cs := s.toList
  let sgn : ℚ := if cs.headD ' ' = '-' then -1 else 1
  let cs := if cs.headD ' ' = '-' || cs.headD ' ' = '+' then cs.tail else cs
  let intPart := cs.takeWhile Char.isDigit
  let rest := cs.dropWhile Char.isDigit
  let fracPart := if rest.headD ' ' = '.' then rest.tail.takeWhile Char.isDigit else []
  sgn * ((natOfDigits intPart 0 : ℚ) +
    (natOfDigits fracPart 0 : ℚ) / (10 : ℚ) ^ fracPart.length)

def jsParseFloat (s : String) : ℝ := (jsParseFloatQ s : ℚ)

/-- Model of JS `parseInt` on the frame-count token: optional sign and
leading digits (NaN on unparsable tokens is not modeled). -/
def jsParseInt (s : String) : ℤ :=
  let cs := s.toList
  let sgn : ℤ := if cs.headD ' ' = '-' then -1 else 1
  let cs := if cs.headD ' ' = '-' || cs.headD ' ' = '+' then cs.tail else cs
  sgn * (natOfDigits (cs.takeWhile Char.isDigit) 0 : ℤ)

mutual

/-- The recursive `parseJoint` closure of `parseHierarchy` (script.js
309-348).  The JS mutable `index` is threaded explicitly and returned;
`fuel` bounds the recursion (the caller supplies more fuel than any
parse can consume, and no theorem depends on the exact exhaustion
point).  Reading a line past the end of the array is a JS crash
(`undefined.startsWith`), modeled as a format error. -/
def parseJoint (lines : List String) : ℕ → ℕ → Except Err (Joint × ℕ)
  | 0, _ => .error (.formatError "unexpected end of hierarchy")
  | fuel + 1, index =>
    match lines[index]? with
    | none => .error (.formatError "unexpected end of hierarchy")
    | some line =>
      let isEndSite := jsStartsWith line "End Site"
      let name := if isEndSite then "EndSite" else (splitWS line).getD 1 ""
      let joint := newJoint name
      if lines[index + 1]? = some "\x7b" then
        parseBody lines fuel (index + 2) joint
      else .error (.formatError "Expected \x7b")

/-- The while-loop of `parseJoint`: consume lines until the closing
brace, recognizing OFFSET, CHANNELS and nested JOINT / End Site lines
and skipping anything else; running off the end of the line list exits
the loop and returns the joint, exactly as the JS `while` does. -/
def parseBody (lines : List String) : ℕ → ℕ → Joint → Except Err (Joint × ℕ)
  | 0, _, _ => .error (.formatError "unexpected end of hierarchy")
  | fuel + 1, index, joint =>
    match lines[index]? with
    | none => .ok (joint, index)
    | some line =>
      if jsStartsWith line "OFFSET" then
        let parts := (splitWS line).map jsParseFloat
        parseBody lines fuel (index + 1)
          (joint.setOffset ⟨parts.getD 1 0, parts.getD 2 0, parts.getD 3 0⟩)
      else if jsStartsWith line "CHANNELS" then
        let parts := splitWS line
        let chans := parts.drop 2
        parseBody lines fuel (index + 1)
          (joint.setChannels chans ((lastThree chans).map firstCharD))
      else if jsStartsWith line "JOINT" || jsStartsWith line "End Site" then
        match parseJoint lines fuel index with
        | .error e => .error e
        | .ok (child, index2) => parseBody lines fuel index2 (joint.addChild child)
      else if line = "\x7d" then
        .ok (joint, index + 1)
      else
        parseBody lines fuel (index + 1) joint

end

/-- `parseHierarchy` (script.js 306-351): parse starting at line index 1
(index 0 holds the HIERARCHY keyword, validated by the caller). -/
def parseHierarchy (hierarchy : List String) : Except Err Joint :=
  (parseJoint hierarchy (2 * hierarchy.length + 2) 1).map Prod.fst

/-- `parseMotion` (script.js 354-379): line 1 carries the frame count as
its second token, line 2 the frame time as its third token, and every
further line is one frame row of floats.  A missing header line is a JS
crash (`undefined.trim`), modeled as a format error. -/
def parseMotion (motion : List String) : Except Err (ℤ × ℝ × List (List ℝ)) :=
  match motion[1]?, motion[2]? with
  | some l1, some l2 =>
    let frame_count := jsParseInt ((splitWS (jsTrim l1)).getD 1 "")
    let frame_time := jsParseFloat ((splitWS (jsTrim l2)).getD 2 "")
    let frames := (motion.drop 3).map (fun line => (splitWS (jsTrim line)).map jsParseFloat)
    .ok (frame_count, frame_time, frames)
  | _, _ => .error (.formatError "missing motion header")

/-- The line preprocessing of `parseBVH` (script.js 384-387): split into
lines, trim each, drop empties.  Splitting on the newline character and
trimming is equivalent to the JS split on /\r?\n/ plus trim, since trim
removes a trailing carriage return. -/
def processLines (bvhText : String) : List String :=
  (((splitWhen (fun c => c = '\n') bvhText.toList).map
    (fun cs => String.mk (trimChars cs))).filter (fun l => l.length > 0))

/-- `parseBVH` (script.js 382-409). -/
def parseBVH (bvhText : String) :
    Except Err (Joint × (ℤ × ℝ × List (List ℝ))) :=
  let lines := processLines bvhText
  if lines[0]? ≠ some "HIERARCHY" then
    .error (.formatError "Invalid BVH: Missing HIERARCHY section")
  else
    match lines.findIdx? (fun line => line = "MOTION") with
    | none => .error (.formatError "Invalid BVH: Missing MOTION section")
    | some motion_idx =>
      let hierarchy := lines.take motion_idx
      let motion := lines.drop motion_idx
      match parseHierarchy hierarchy with
      | .error e => .error e
      | .ok root =>
        match parseMotion motion with
        | .error e => .error e
        | .ok motionData => .ok (root, motionData)

/-- Occurrence of `pat` as a contiguous run inside `s`. -/
def listHasRun (pat s : List Char) : Bool :=
  (List.range (s.length + 1)).any (fun i => pat.isPrefixOf (s.drop i))

/-- The lowercase-inclusion test `ch.toLowerCase().includes(sub)`. -/
def includesSub (s sub : String) : Bool :=
  listHasRun sub.toList (s.toList.map Char.toLower)

def isPositionChannel (ch : String) : Bool := includesSub ch "position"

def isRotationChannel (ch : String) : Bool := includesSub ch "rotation"

/-- The number of rotation channels declared for a joint (the channel
names containing "rotation"). -/
def rotChannelCount (j : Joint) : ℕ :=
  (j.channels.filter (fun ch => isRotationChannel ch)).length

/-! ## Pose evaluation (Animator.transformJoint, script.js 441-489)

`animator.update()` runs `transformJoint(root, { idx: 0 }, true)` over
the root for the current frame row.  The shared mutable cursor
`state.idx` is threaded explicitly; the JS mutation of
`joint.position` / `joint.quaternion` is modeled by returning an
updated tree.  A read past the end of the row is JS `undefined`
(propagating as NaN); the value is modeled by the default 0 and the
cursor still advances, since `state.idx++` increments regardless. -/

/-- The root-only position loop: `joint.channels.forEach(...)`. -/
def consumePosition (chs : List String) (row : List ℝ) (idx : ℕ) (p : Vec3) :
    Vec3 × ℕ :=
  match chs with
  | [] => (p, idx)
  | channel :: rest =>
    if channel = "Xposition" then
      consumePosition rest row (idx + 1) { p with x := row.getD idx 0 }
    else if channel = "Yposition" then
      consumePosition rest row (idx + 1) { p with y := row.getD idx 0 }
    else if channel = "Zposition" then
      consumePosition rest row (idx + 1) { p with z := row.getD idx 0 }
    else consumePosition rest row idx p

/-- The rotation loop over `joint.channel_order`: a switch on the axis
character; any other character consumes nothing. -/
def consumeRotation (co : List Char) (row : List ℝ) (idx : ℕ) (r : Vec3) :
    Vec3 × ℕ :=
  match co with
  | [] => (r, idx)
  | c :: rest =>
    if c = 'X' then consumeRotation rest row (idx + 1) { r with x := row.getD idx 0 }
    else if c = 'Y' then consumeRotation rest row (idx + 1) { r with y := row.getD idx 0 }
    else if c = 'Z' then consumeRotation rest row (idx + 1) { r with z := row.getD idx 0 }
    else consumeRotation rest row idx r

mutual

/-- `Animator.transformJoint(joint, state, isRoot)` on one frame row:
returns the updated joint tree and the final cursor. -/
def transformJoint (j : Joint) (row : List ℝ) (idx : ℕ) (isRoot : Bool) :
    Joint × ℕ :=
  match j with
  | .node n o chs co l p _ cs =>
    let pi1 := if isRoot then consumePosition chs row idx p else (p, idx)
    let ri := consumeRotation co row pi1.2 ⟨0, 0, 0⟩
    let q2 := if co.length > 0 then
        setFromEulerStr (rad ri.1.x) (rad ri.1.y) (rad ri.1.z) co
      else ⟨1, 0, 0, 0⟩
    let cr := transformChildren cs row ri.2
    (.node n o chs co l pi1.1 q2 cr.1, cr.2)

/-- `joint.children.forEach((child) => this.transformJoint(child, state, false))`. -/
def transformChildren (cs : List Joint) (row : List ℝ) (idx : ℕ) :
    List Joint × ℕ :=
  match cs with
  | [] => ([], idx)
  | c :: rest =>
    let cr := transformJoint c row idx false
    let rr := transformChildren rest row cr.2
    (cr.1 :: rr.1, rr.2)

end

mutual

/-- The number of columns a full evaluation actually consumes for a
joint: position-channel matches for the root, plus one column for each
X/Y/Z character of every channel order. -/
def consumedChannels : Joint → Bool → ℕ
  | .node _ _ chs co _ _ _ cs, isRoot =>
    (if isRoot then
        (chs.filter fun ch =>
          ch = "Xposition" || ch = "Yposition" || ch = "Zposition").length
      else 0)
    + (co.filter fun c => c = 'X' || c = 'Y' || c = 'Z').length
    + consumedChannelsList cs

def consumedChannelsList : List Joint → ℕ
  | [] => 0
  | j :: js => consumedChannels j false + consumedChannelsList js

end

/-- The structural (non-pose) content of a joint tree: everything
except the per-tick `position` / `quaternion` outputs. -/
inductive JointShape where
  | node (name : String) (offset : Vec3) (channels : List String)
      (channel_order : List Char) (length : ℝ) (children : List JointShape)

mutual

def stripPose : Joint → JointShape
  | .node n o chs co l _ _ cs => .node n o chs co l (stripPoseList cs)

def stripPoseList : List Joint → List JointShape
  | [] => []
  | j :: js => stripPose j :: stripPoseList js

end

/-! ## Clip stitching (stitch_motion, script.js 500-715) -/

/-- The one-second transition duration constant. -/
def MIX_DURATION : ℝ := 1

/-- `BLEND_FRAMES = Math.ceil(MIX_DURATION / ft1)`.  For the positive
frame times of actual clips this is the JS value; a negative ceil (the
JS loop then runs zero times) collapses to 0 under `toNat`, matching
the JS behavior, and a zero frame time (a JS infinite loop) is outside
the model. -/
def BLEND_FRAMES (ft1 : ℝ) : ℕ := (Int.ceil (MIX_DURATION / ft1)).toNat

/-- A blend-map entry: `{ type: 'lerp', idx }` or
`{ type: 'slerp', indices: [ix, iy, iz], order }`.  A missing rotation
axis leaves the JS index slot `undefined`, modeled as `none`. -/
inductive Instr where
  | lerp (idx : ℕ)
  | slerp (ix iy iz : Option ℕ) (order : List Char)
deriving DecidableEq

/-- One step of the per-joint channel scan of `createBlendMap`
(script.js 519-530).  The accumulator carries the map built so far,
the `rotIndices` entries for X / Y / Z, `hasRot`, and
`globalChannelIndex`.  A later same-axis assignment overwrites an
earlier one, and a channel naming neither position nor rotation leaves
everything (including the counter) untouched. -/
def cbmStep (acc : List Instr × Option ℕ × Option ℕ × Option ℕ × Bool × ℕ)
    (ch : String) : List Instr × Option ℕ × Option ℕ × Option ℕ × Bool × ℕ :=
  let (bm, ox, oy, oz, hr, n) := acc
  if isPositionChannel ch then (bm ++ [.lerp n], ox, oy, oz, hr, n + 1)
  else if isRotationChannel ch then
    let axis := (firstCharD ch).toUpper
    (bm, (if axis = 'X' then some n else ox), (if axis = 'Y' then some n else oy),
      (if axis = 'Z' then some n else oz), true, n + 1)
  else acc

mutual

/-- `createBlendMap(joint)` (script.js 514-543): scan this joint's
channels, append a grouped slerp instruction when the joint has
rotation channels, then recurse into the children, threading the
global map and channel counter. -/
def createBlendMapJoint : Joint → List Instr → ℕ → List Instr × ℕ
  | .node _ _ chs co _ _ _ cs, bm, n =>
    let s := chs.foldl cbmStep (bm, none, none, none, false, n)
    let bm2 := if s.2.2.2.2.1 then
        s.1 ++ [.slerp s.2.1 s.2.2.1 s.2.2.2.1 co]
      else s.1
    createBlendMapChildren cs bm2 s.2.2.2.2.2

def createBlendMapChildren : List Joint → List Instr → ℕ → List Instr × ℕ
  | [], bm, n => (bm, n)
  | j :: js, bm, n =>
    let r := createBlendMapJoint j bm n
    createBlendMapChildren js r.1 r.2

end

/-- The blend map generated from the first skeleton (script.js 546). -/
def createBlendMap (rootA : Joint) : List Instr :=
  (createBlendMapJoint rootA [] 0).1

/-- The six root channel indices (script.js 549-559), each -1 when the
name never occurs; with duplicates the last occurrence wins, as in the
JS forEach. -/
structure RootIdx where
  xPos : ℤ
  yPos : ℤ
  zPos : ℤ
  xRot : ℤ
  yRot : ℤ
  zRot : ℤ

def findRootIdx (channels : List String) : RootIdx :=
  (channels.foldl (fun (acc : RootIdx × ℕ) channel =>
    let r := acc.1
    let i := acc.2
    let r := if channel = "Xposition" then { r with xPos := (i : ℤ) } else r
    let r := if channel = "Yposition" then { r with yPos := (i : ℤ) } else r
    let r := if channel = "Zposition" then { r with zPos := (i : ℤ) } else r
    let r := if channel = "Yrotation" then { r with yRot := (i : ℤ) } else r
    let r := if channel = "Xrotation" then { r with xRot := (i : ℤ) } else r
    let r := if channel = "Zrotation" then { r with zRot := (i : ℤ) } else r
    (r, i + 1)) (⟨-1, -1, -1, -1, -1, -1⟩, 0)).1

/-- JS column read `frame[i]` at a signed index: a negative index or an
index past the end yields `undefined` (NaN downstream), modeled by the
junk value 0 — no settled claim depends on an out-of-range read. -/
def getI (frame : List ℝ) (i : ℤ) : ℝ :=
  if 0 ≤ i then frame.getD i.toNat 0 else 0

/-- JS column write `frame[i] = v` at a signed index.  A negative index
stores to a non-column property and leaves every column unchanged;
`List.set` is also a no-op there.  A write past the current end would
lengthen the JS array; none of the settled claims touches that case,
and `List.set` leaves the row unchanged. -/
def setI (frame : List ℝ) (i : ℤ) (v : ℝ) : List ℝ :=
  if 0 ≤ i then frame.set i.toNat v else frame

/-- Optional column read, used by theorem statements to compare column
contents: `none` for a negative or out-of-range index. -/
def getIOpt (frame : List ℝ) (i : ℤ) : Option ℝ :=
  if 0 ≤ i then frame[i.toNat]? else none

/-- The root position of an anchor frame (script.js 564-568). -/
def posOf (frame : List ℝ) (r : RootIdx) : Vec3 :=
  ⟨getI frame r.xPos, getI frame r.yPos, getI frame r.zPos⟩

/-- The full anchor rotation (script.js 571-578): Euler angles from the
root rotation columns, composed in the root's own channel order. -/
def anchorFull (frame : List ℝ) (r : RootIdx) (order : List Char) : Quat :=
  setFromEulerStr (rad (getI frame r.xRot)) (rad (getI frame r.yRot))
    (rad (getI frame r.zRot)) order

/-- The yaw-only anchor rotation (script.js 579-582): re-decompose the
full rotation with the fixed Y-X-Z extraction, zero pitch and roll,
and rebuild. -/
def anchorYaw (frame : List ℝ) (r : RootIdx) (order : List Char) : Quat :=
  let e := eulerFromQuatStr (anchorFull frame r order) ['Y', 'X', 'Z']
  setFromEulerStr 0 e.y 0 ['Y', 'X', 'Z']

/-- `deltaQuat = rotA_Yaw.clone().multiply(rotB_Yaw.clone().invert())`
(script.js 607); THREE `invert()` is the conjugate `star`. -/
def deltaQuatOf (lastFrameA firstFrameB : List ℝ) (r : RootIdx)
    (orderA orderB : List Char) : Quat :=
  anchorYaw lastFrameA r orderA * star (anchorYaw firstFrameB r orderB)

/-- The per-frame alignment body of the `f2_aligned.forEach` loop
(script.js 612-644): re-base the horizontal position around the
anchors, keep the original vertical position, and pre-multiply the
rotation by the delta, reading the rotation columns from the
already-position-rewritten row exactly as the JS does. -/
def alignFrame (r : RootIdx) (posB_Start posA_End : Vec3) (deltaQuat : Quat)
    (orderB : List Char) (frame : List ℝ) : List ℝ :=
  let currentPos := posOf frame r
  let offset := applyQuaternion (subVectors currentPos posB_Start) deltaQuat
  let f := setI frame r.xPos (posA_End.x + offset.x)
  let f := setI f r.zPos (posA_End.z + offset.z)
  let f := setI f r.yPos currentPos.y
  let currentRot := deltaQuat *
    setFromEulerStr (rad (getI f r.xRot)) (rad (getI f r.yRot))
      (rad (getI f r.zRot)) orderB
  let newEuler := eulerFromQuatStr currentRot orderB
  let f := setI f r.xRot (radToDeg newEuler.x)
  let f := setI f r.yRot (radToDeg newEuler.y)
  let f := setI f r.zRot (radToDeg newEuler.z)
  f

/-- Read at an optional blend-map index: `none` is the JS `undefined`
index (the read yields NaN downstream); modeled by the junk value 0,
never relied upon by a settled claim. -/
def readO (frame : List ℝ) (o : Option ℕ) : ℝ :=
  match o with
  | some i => frame.getD i 0
  | none => 0

/-- Write at an optional blend-map index: `newFrame[undefined] = v`
creates a non-column property and changes no column. -/
def writeO (frame : List ℝ) (o : Option ℕ) (v : ℝ) : List ℝ :=
  match o with
  | some i => frame.set i v
  | none => frame

/-- One blend instruction applied to the frame being built
(script.js 659-702). -/
def applyInstr (startFrame endFrame : List ℝ) (t : ℝ) (nf : List ℝ) :
    Instr → List ℝ
  | .lerp idx =>
    let valA := startFrame.getD idx 0
    let valB := endFrame.getD idx 0
    nf.set idx (valA + (valB - valA) * t)
  | .slerp ox oy oz order =>
    let qA := setFromEulerStr (rad (readO startFrame ox))
      (rad (readO startFrame oy)) (rad (readO startFrame oz)) order
    let qB := setFromEulerStr (rad (readO endFrame ox))
      (rad (readO endFrame oy)) (rad (readO endFrame oz)) order
    let resultEuler := eulerFromQuatStr (slerpQ qA qB t) order
    writeO (writeO (writeO nf ox (radToDeg resultEuler.x)) oy
      (radToDeg resultEuler.y)) oz (radToDeg resultEuler.z)

/-- The interpolation parameter `t = i / (BLEND_FRAMES + 1)`
(script.js 653). -/
def blendParam (i N : ℕ) : ℝ := (i : ℝ) / ((N : ℝ) + 1)

/-- One generated blend frame: start from `new Array(totalChannels)
.fill(0)` with `totalChannels = startFrame.length` and run every
blend-map instruction over it (script.js 655-702). -/
def blendFrame (bm : List Instr) (startFrame endFrame : List ℝ) (t : ℝ) :
    List ℝ :=
  bm.foldl (applyInstr startFrame endFrame t) (List.replicate startFrame.length 0)

/-- The generated blend segment: frames for i = 1..N at t = i/(N+1)
(script.js 652-705). -/
def blendFramesList (bm : List Instr) (startFrame endFrame : List ℝ) (N : ℕ) :
    List (List ℝ) :=
  (List.range N).map (fun k => blendFrame bm startFrame endFrame (blendParam (k + 1) N))

/-- `stitch_motion` (script.js 500-715) on values.  An empty input clip
would crash the JS on an `undefined` anchor row; the model reads the
empty row there.  The unused frame counts of the unpacked motion data
are taken but ignored, as in the JS destructuring. -/
def stitch_motion (rootA rootB : Joint) (motionDataA motionDataB : ℤ × ℝ × List (List ℝ)) :
    ℕ × ℝ × List (List ℝ) :=
  let ft1 := motionDataA.2.1
  let f1 := motionDataA.2.2
  let ft2 := motionDataB.2.1
  let f2 := motionDataB.2.2
  let bm := createBlendMap rootA
  let r := findRootIdx rootA.channels
  let lastFrameA := f1.getD (f1.length - 1) []
  let posA_End := posOf lastFrameA r
  let firstFrameB := f2.getD 0 []
  let posB_Start := posOf firstFrameB r
  let deltaQuat := deltaQuatOf lastFrameA firstFrameB r rootA.channel_order rootB.channel_order
  let f2_aligned := f2.map (alignFrame r posB_Start posA_End deltaQuat rootB.channel_order)
  let endFrame := f2_aligned.getD 0 []
  let blendFrames := blendFramesList bm lastFrameA endFrame (BLEND_FRAMES ft1)
  let stitched := f1 ++ blendFrames ++ f2_aligned
  (stitched.length, (if ft1 = ft2 then ft1 else -1), stitched)

/-! ## Row-store model of the stitch

JS frame matrices are arrays of row arrays; rows are mutable objects
with identity.  To state what `stitch_motion` does and does not mutate
(claim C8), rows live in a store and a frame matrix is a list of row
references.  `JSON.parse(JSON.stringify(f2))` allocates a fresh row
for every row of clip B; the alignment loop then writes only those
fresh rows.  The final concatenation shares the original clip-A row
references, exactly as the JS `concat` does. -/

structure Store where
  rows : List (List ℝ)

abbrev Ref := ℕ

def Store.read (s : Store) (r : Ref) : List ℝ := s.rows.getD r []

def Store.alloc (s : Store) (row : List ℝ) : Store × Ref :=
  (⟨s.rows ++ [row]⟩, s.rows.length)

def Store.write (s : Store) (r : Ref) (row : List ℝ) : Store :=
  ⟨s.rows.set r row⟩

def allocList (s : Store) : List (List ℝ) → Store × List Ref
  | [] => (s, [])
  | row :: rest =>
    let a := s.alloc row
    let b := allocList a.1 rest
    (b.1, a.2 :: b.2)

/-- `JSON.parse(JSON.stringify(f2))`: fresh rows holding copies of the
referenced row values. -/
def deepCopy (s : Store) (refs : List Ref) : Store × List Ref :=
  allocList s (refs.map s.read)

/-- The `f2_aligned.forEach` loop as in-place mutation of the copied
rows. -/
def alignRefs (r : RootIdx) (pB pA : Vec3) (dq : Quat) (orderB : List Char)
    (s : Store) (refs : List Ref) : Store :=
  refs.foldl (fun s ref => s.write ref (alignFrame r pB pA dq orderB (s.read ref))) s

/-- `stitch_motion` at the row-store level: same computation as the
value-level definition, with the deep copy, the in-place alignment
writes, and the reference-sharing concatenation made explicit.
Returns the final store and the stitched reference list. -/
def stitchHeap (rootA rootB : Joint) (ft1 : ℝ) (s : Store) (f1 f2 : List Ref) :
    Store × List Ref :=
  let bm := createBlendMap rootA
  let r := findRootIdx rootA.channels
  let lastFrameA := s.read (f1.getD (f1.length - 1) 0)
  let posA_End := posOf lastFrameA r
  let firstFrameB := s.read (f2.getD 0 0)
  let posB_Start := posOf firstFrameB r
  let dq := deltaQuatOf lastFrameA firstFrameB r rootA.channel_order rootB.channel_order
  let c := deepCopy s f2
  let s2 := alignRefs r posB_Start posA_End dq rootB.channel_order c.1 c.2
  let endFrame := s2.read (c.2.getD 0 0)
  let b := allocList s2 (blendFramesList bm lastFrameA endFrame (BLEND_FRAMES ft1))
  (b.1, f1 ++ b.2 ++ c.2)

/-- The channels / channel-order relation the hierarchy parser
maintains on every joint it builds. -/
def chOrderInv (j : Joint) : Prop :=
  j.channel_order = (lastThree j.channels).map firstCharD

/-- `chOrderInv` over a whole subtree. -/
def treeInv (j : Joint) : Prop := ∀ x ∈ jointsOf j, chOrderInv x

/-- The root joint parsed from the C6 witness input. -/
def c6WitnessRoot : Joint :=
  (parseHierarchy ["HIERARCHY", "ROOT Hip", "\x7b",
      "CHANNELS 6 Xposition Yposition Zposition Zrotation Xrotation Yrotation",
      "\x7d"]).toOption.getD (newJoint "")

/-- A skeleton with a six-channel non-root joint, built by the
parser (such BVH files, with full position + rotation channels on
every joint, occur in practice). -/
def c4Skel : Joint :=
  (parseHierarchy ["HIERARCHY", "ROOT Hip", "\x7b",
      "CHANNELS 6 Xposition Yposition Zposition Zrotation Xrotation Yrotation",
      "JOINT Spine", "\x7b",
      "CHANNELS 6 Xposition Yposition Zposition Zrotation Xrotation Yrotation",
      "\x7d", "\x7d"]).toOption.getD (newJoint "")

/-- A root with three rotation channels, built by the parser, for the
C7 counterexample. -/
def c7Joint : Joint :=
  (parseHierarchy ["HIERARCHY", "ROOT A", "\x7b",
      "CHANNELS 3 Xrotation Yrotation Zrotation", "\x7d"]).toOption.getD
    (newJoint "")

/-- The column indices a blend instruction targets. -/
def mentions : Instr → List ℕ
  | .lerp i => [i]
  | .slerp ox oy oz _ => ox.toList ++ oy.toList ++ oz.toList

def mentionsAll : List Instr → List ℕ
  | [] => []
  | ins :: rest => mentions ins ++ mentionsAll rest

/-- Scan-state invariant of `createBlendMap`: every column index
recorded so far — in the map or in the pending rotation slots — is
distinct from all others and below the global channel counter. -/
def cbmOk (bm : List Instr) (ox oy oz : Option ℕ) (n : ℕ) : Prop :=
  (mentionsAll bm ++ (ox.toList ++ (oy.toList ++ oz.toList))).Nodup ∧
    ∀ m ∈ mentionsAll bm ++ (ox.toList ++ (oy.toList ++ oz.toList)), m < n

/-- The invariant over the 6-tuple scan state. -/
def cbmOkT (st : List Instr × Option ℕ × Option ℕ × Option ℕ × Bool × ℕ) : Prop :=
  cbmOk st.1 st.2.1 st.2.2.1 st.2.2.2.1 st.2.2.2.2.2

/-- A one-position-channel root for the C3 witness. -/
def c3Root : Joint :=
  (parseHierarchy ["HIERARCHY", "ROOT A", "\x7b", "CHANNELS 1 Xposition",
      "\x7d"]).toOption.getD (newJoint "")

/-- A root declaring a position channel and a non-animatable channel
name, for the C10 witness. -/
def c10Root : Joint :=
  (parseHierarchy ["HIERARCHY", "ROOT A", "\x7b", "CHANNELS 2 Xposition Xscale",
      "\x7d"]).toOption.getD (newJoint "")

/-- The aligned clip-B frame list exactly as `stitch_motion` computes
it (the anchors come from clip A last frame and clip B first frame). -/
def stitchAligned (rootA rootB : Joint) (f1 f2 : List (List ℝ)) :
    List (List ℝ) :=
  f2.map (alignFrame (findRootIdx rootA.channels)
    (posOf (f2.getD 0 []) (findRootIdx rootA.channels))
    (posOf (f1.getD (f1.length - 1) []) (findRootIdx rootA.channels))
    (deltaQuatOf (f1.getD (f1.length - 1) []) (f2.getD 0 [])
      (findRootIdx rootA.channels) rootA.channel_order rootB.channel_order)
    rootB.channel_order)

/-- The generated blend segment exactly as `stitch_motion` computes it. -/
def stitchBlend (rootA rootB : Joint) (ft1 : ℝ) (f1 f2 : List (List ℝ)) :
    List (List ℝ) :=
  blendFramesList (createBlendMap rootA) (f1.getD (f1.length - 1) [])
    ((stitchAligned rootA rootB f1 f2).getD 0 []) (BLEND_FRAMES ft1)

/-! ## Shared helper lemmas -/

theorem jointsOfList_append (a b : List Joint) :
    jointsOfList (a ++ b) = jointsOfList a ++ jointsOfList b := by
  induction a with
  | nil => simp [jointsOfList]
  | cons j js ih => simp [jointsOfList, ih]

theorem self_mem_jointsOf (j : Joint) : j ∈ jointsOf j := by
  cases j with
  | node n o chs co l p q cs => simp [jointsOf]

theorem treeInv_newJoint (n : String) : treeInv (newJoint n) := by
  intro x hx
  simp [newJoint, jointsOf, jointsOfList] at hx
  subst hx
  simp [chOrderInv, Joint.channel_order, Joint.channels, lastThree, newJoint]

theorem treeInv_setOffset (j : Joint) (v : Vec3) (h : treeInv j) :
    treeInv (j.setOffset v) := by
  cases j with
  | node n o chs co l p q cs =>
    intro x hx
    simp only [Joint.setOffset, jointsOf, List.mem_cons] at hx
    rcases hx with rfl | hx
    · have := h _ (self_mem_jointsOf (.node n o chs co l p q cs))
      simpa [chOrderInv, Joint.channel_order, Joint.channels] using this
    · exact h x (by simp [jointsOf, List.mem_cons]; right; exact hx)

theorem treeInv_setChannels (j : Joint) (chans : List String) (h : treeInv j) :
    treeInv (j.setChannels chans ((lastThree chans).map firstCharD)) := by
  cases j with
  | node n o chs co l p q cs =>
    intro x hx
    simp only [Joint.setChannels, jointsOf, List.mem_cons] at hx
    rcases hx with rfl | hx
    · simp [chOrderInv, Joint.channel_order, Joint.channels]
    · exact h x (by simp [jointsOf, List.mem_cons]; right; exact hx)

theorem treeInv_addChild (j c : Joint) (h : treeInv j) (hc : treeInv c) :
    treeInv (j.addChild c) := by
  cases j with
  | node n o chs co l p q cs =>
    intro x hx
    simp only [Joint.addChild, jointsOf, List.mem_cons, jointsOfList_append,
      List.mem_append] at hx
    rcases hx with rfl | hx | hx
    · have := h _ (self_mem_jointsOf (.node n o chs co l p q cs))
      simpa [chOrderInv, Joint.channel_order, Joint.channels] using this
    · exact h x (by simp [jointsOf, List.mem_cons]; right; exact hx)
    · simp only [jointsOfList, List.append_nil] at hx
      exact hc x hx

/-- The parser preserves `chOrderInv` on every joint it returns. -/
theorem parse_chOrderInv (lines : List String) : ∀ fuel : ℕ,
    (∀ index j idx2, parseJoint lines fuel index = Except.ok (j, idx2) → treeInv j) ∧
    (∀ index joint j idx2, treeInv joint →
      parseBody lines fuel index joint = Except.ok (j, idx2) → treeInv j) := by
  intro fuel
  induction fuel with
  | zero =>
    refine ⟨?_, ?_⟩
    · intro index j idx2 hok
      simp [parseJoint] at hok
    · intro index joint j idx2 _ hok
      simp [parseBody] at hok
  | succ n ih =>
    refine ⟨?_, ?_⟩
    · intro index j idx2 hok
      simp only [parseJoint] at hok
      cases hL : lines[index]? with
      | none => rw [hL] at hok; simp at hok
      | some line =>
        rw [hL] at hok
        simp only at hok
        split at hok
        · exact ih.2 _ _ _ _ (treeInv_newJoint _) hok
        · simp at hok
    · intro index joint j idx2 hinv hok
      simp only [parseBody] at hok
      cases hL : lines[index]? with
      | none =>
        rw [hL] at hok
        simp only [Except.ok.injEq, Prod.mk.injEq] at hok
        obtain ⟨rfl, -⟩ := hok
        exact hinv
      | some line =>
        rw [hL] at hok
        simp only at hok
        split at hok
        · exact ih.2 _ _ _ _ (treeInv_setOffset _ _ hinv) hok
        · split at hok
          · exact ih.2 _ _ _ _ (treeInv_setChannels _ _ hinv) hok
          · split at hok
            · cases hpj : parseJoint lines n index with
              | error e => rw [hpj] at hok; simp at hok
              | ok val =>
                rw [hpj] at hok
                simp only at hok
                have hchild : treeInv val.1 := ih.1 _ _ _ (by rw [hpj])
                exact ih.2 _ _ _ _ (treeInv_addChild _ _ hinv hchild) hok
            · split at hok
              · simp only [Except.ok.injEq, Prod.mk.injEq] at hok
                obtain ⟨rfl, -⟩ := hok
                exact hinv
              · exact ih.2 _ _ _ _ hinv hok

/-! ## Claim theorems -/

/-- Claim C9: for every input text in which no processed (trimmed,
non-empty) line equals the MOTION keyword, the BVH parser fails with a
FormatError, returning no partial result: the overall result is an
error, so neither a joint tree nor frame data is produced. -/
theorem c9_missing_motion_is_format_error (bvhText : String)
    (h : "MOTION" ∉ processLines bvhText) :
    ∃ msg, parseBVH bvhText = Except.error (Err.formatError msg) := by
  by_cases h0 : (processLines bvhText)[0]? = some "HIERARCHY"
  · refine ⟨"Invalid BVH: Missing MOTION section", ?_⟩
    have hf : (processLines bvhText).findIdx? (fun line => line = "MOTION") = none := by
      rw [List.findIdx?_eq_none_iff]
      intro x hx
      simp only [decide_eq_false_iff_not]
      intro hEq
      exact h (hEq ▸ hx)
    simp [parseBVH, h0, hf]
  · exact ⟨"Invalid BVH: Missing HIERARCHY section", by simp [parseBVH, h0]⟩

/-- Witness for C9 at the concrete one-line input. -/
theorem c9_missing_motion_is_format_error_witness :
    "MOTION" ∉ processLines "HIERARCHY" ∧
      ∃ msg, parseBVH "HIERARCHY" = Except.error (Err.formatError msg) :=
  ⟨by decide, c9_missing_motion_is_format_error "HIERARCHY" (by decide)⟩

/-- Claim C6 counterexample: the hierarchy parser accepts a root that
declares only position channels; that joint has channel-order length 3
while it declares zero rotation channels, so channel-order length does
not in general equal the declared rotation-channel count. -/
theorem c6_counterexample_position_only_joint :
    ((parseHierarchy ["HIERARCHY", "ROOT A", "\x7b",
        "CHANNELS 3 Xposition Yposition Zposition", "\x7d"]).toOption.map
      (fun j => (j.channel_order.length, rotChannelCount j))) = some (3, 0) ∧
      (3 : ℕ) ≠ 0 :=
  ⟨by decide, by decide⟩

/-- Claim C6 (amended): for every joint produced by the hierarchy
parser, channel-order is the last up-to-three declared channel names
reduced to their first characters, with the CHANNELS count token
ignored; its length is therefore min 3 (number of declared names),
and this equals the declared rotation-channel count exactly when the
rotation channels fill min 3 len slots (as in standard layouts: a root
with three positions then three rotations, joints with exactly three
rotations, channel-less end sites) — not for every joint, see the
counterexample. -/
theorem c6_amended_channel_order (hierarchy : List String) (root : Joint)
    (hok : parseHierarchy hierarchy = Except.ok root) :
    ∀ j ∈ jointsOf root,
      j.channel_order = (lastThree j.channels).map firstCharD ∧
      j.channel_order.length = min 3 j.channels.length ∧
      ((j.channels.filter fun ch => isRotationChannel ch).length =
          min 3 j.channels.length →
        j.channel_order.length = rotChannelCount j) := by
  have hinv : treeInv root := by
    unfold parseHierarchy at hok
    cases hpj : parseJoint hierarchy (2 * hierarchy.length + 2) 1 with
    | error e => rw [hpj] at hok; simp [Except.map] at hok
    | ok val =>
      rw [hpj] at hok
      simp only [Except.map, Except.ok.injEq] at hok
      subst hok
      exact (parse_chOrderInv hierarchy _).1 _ _ _ (by rw [hpj])
  intro j hj
  have hco := hinv j hj
  unfold chOrderInv at hco
  have hlen : j.channel_order.length = min 3 j.channels.length := by
    rw [hco]
    simp only [List.length_map, lastThree, List.length_drop]
    omega
  refine ⟨hco, hlen, ?_⟩
  intro hrot
  rw [hlen, rotChannelCount, ← hrot]

/-- Witness for C6 (amended) on a standard six-channel root. -/
theorem c6_amended_channel_order_witness :
    parseHierarchy ["HIERARCHY", "ROOT Hip", "\x7b",
        "CHANNELS 6 Xposition Yposition Zposition Zrotation Xrotation Yrotation",
        "\x7d"] = Except.ok c6WitnessRoot ∧
      (c6WitnessRoot.channel_order =
          (lastThree c6WitnessRoot.channels).map firstCharD ∧
        c6WitnessRoot.channel_order.length = min 3 c6WitnessRoot.channels.length ∧
        ((c6WitnessRoot.channels.filter fun ch => isRotationChannel ch).length =
            min 3 c6WitnessRoot.channels.length →
          c6WitnessRoot.channel_order.length = rotChannelCount c6WitnessRoot)) := by
  have hok : parseHierarchy ["HIERARCHY", "ROOT Hip", "\x7b",
      "CHANNELS 6 Xposition Yposition Zposition Zrotation Xrotation Yrotation",
      "\x7d"] = Except.ok c6WitnessRoot := by rfl
  exact ⟨hok, c6_amended_channel_order _ c6WitnessRoot hok c6WitnessRoot
    (self_mem_jointsOf _)⟩

theorem consumePosition_cursor (chs : List String) (row : List ℝ) :
    ∀ idx p, (consumePosition chs row idx p).2 =
      idx + (chs.filter fun ch =>
        ch = "Xposition" || ch = "Yposition" || ch = "Zposition").length := by
  induction chs with
  | nil => intro idx p; simp [consumePosition]
  | cons ch rest ih =>
    intro idx p
    by_cases hx : ch = "Xposition"
    · simp [consumePosition, hx, ih, List.filter]; omega
    · by_cases hy : ch = "Yposition"
      · simp [consumePosition, hx, hy, ih, List.filter]; omega
      · by_cases hz : ch = "Zposition"
        · simp [consumePosition, hx, hy, hz, ih, List.filter]; omega
        · simp [consumePosition, hx, hy, hz, ih, List.filter]

theorem consumeRotation_cursor (co : List Char) (row : List ℝ) :
    ∀ idx r, (consumeRotation co row idx r).2 =
      idx + (co.filter fun c => c = 'X' || c = 'Y' || c = 'Z').length := by
  induction co with
  | nil => intro idx r; simp [consumeRotation]
  | cons c rest ih =>
    intro idx r
    by_cases hx : c = 'X'
    · simp [consumeRotation, hx, ih, List.filter]; omega
    · by_cases hy : c = 'Y'
      · simp [consumeRotation, hx, hy, ih, List.filter]; omega
      · by_cases hz : c = 'Z'
        · simp [consumeRotation, hx, hy, hz, ih, List.filter]; omega
        · simp [consumeRotation, hx, hy, hz, ih, List.filter]

mutual

theorem transformJoint_cursor (j : Joint) (row : List ℝ) (idx : ℕ) (b : Bool) :
    (transformJoint j row idx b).2 = idx + consumedChannels j b := by
  cases j with
  | node n o chs co l p q cs =>
    simp only [transformJoint, consumedChannels]
    rw [transformChildren_cursor cs row _, consumeRotation_cursor]
    cases b with
    | true => simp [consumePosition_cursor]; omega
    | false => simp; omega

theorem transformChildren_cursor (cs : List Joint) (row : List ℝ) (idx : ℕ) :
    (transformChildren cs row idx).2 = idx + consumedChannelsList cs := by
  cases cs with
  | nil => simp [transformChildren, consumedChannelsList]
  | cons c rest =>
    simp only [transformChildren, consumedChannelsList]
    rw [transformChildren_cursor rest row _, transformJoint_cursor c row idx false]
    omega

end

/-- Claim C4 counterexample: on a skeleton whose non-root joint
declares six channels, a full evaluation over a well-formed 12-column
row ends with the cursor at 9, not at the total channel count 12
(positions of a non-root joint are never consumed and channel-order
covers only the last three names) — and the evaluation returns
normally rather than raising any error. -/
theorem c4_counterexample_six_channel_child :
    (transformJoint c4Skel (List.replicate 12 (0 : ℝ)) 0 true).2 = 9 ∧
      totalChannels c4Skel = 12 ∧ (9 : ℕ) ≠ 12 :=
  ⟨by decide, by decide, by decide⟩

/-- Claim C4 (amended): for every skeleton and every frame row —
well-formed or truncated — evaluation returns normally (no DataError
exists in the code: reads past the end of the row yield undefined and
the shared cursor still advances), and the final cursor equals the
starting cursor plus `consumedChannels`: the root's position-channel
matches plus, for every joint, its X/Y/Z channel-order characters.
This equals the total declared channel count for standard skeletons
(see the witness) but not for every skeleton (see the
counterexample), and it is independent of the row length, so a
truncated row is silently under-read, never surfaced. -/
theorem c4_amended_cursor_consumed (j : Joint) (row : List ℝ) (idx : ℕ)
    (isRoot : Bool) :
    (transformJoint j row idx isRoot).2 = idx + consumedChannels j isRoot :=
  transformJoint_cursor j row idx isRoot

mutual

theorem transformJoint_stripPose (j : Joint) (row : List ℝ) (idx : ℕ) (b : Bool) :
    stripPose (transformJoint j row idx b).1 = stripPose j := by
  cases j with
  | node n o chs co l p q cs =>
    simp only [transformJoint, stripPose]
    rw [transformChildren_stripPose cs row]

theorem transformChildren_stripPose (cs : List Joint) (row : List ℝ) (idx : ℕ) :
    stripPoseList (transformChildren cs row idx).1 = stripPoseList cs := by
  cases cs with
  | nil => simp [transformChildren]
  | cons c rest =>
    simp only [transformChildren, stripPoseList]
    rw [transformJoint_stripPose c row idx false, transformChildren_stripPose rest row]

end

/-- Claim C7 counterexample: evaluating one frame DOES mutate the joint
tree — the root quaternion of the evaluated tree (for a 180-degree
X-rotation frame its scalar part is cos(pi/2) = 0) differs from the
stored identity quaternion (scalar part 1): the evaluator communicates
the pose precisely by writing `joint.quaternion` / `joint.position`
on the tree. -/
theorem c7_counterexample_quaternion_mutated :
    (transformJoint c7Joint [(180 : ℝ), 0, 0] 0 true).1.quaternion ≠
      c7Joint.quaternion := by
  intro hEq
  have hre := congrArg QuaternionAlgebra.re hEq
  have hL : (transformJoint c7Joint [(180 : ℝ), 0, 0] 0 true).1.quaternion.re
      = Real.cos (rad 180 / 2) * Real.cos (rad 0 / 2) * Real.cos (rad 0 / 2)
        - Real.sin (rad 180 / 2) * Real.sin (rad 0 / 2) * Real.sin (rad 0 / 2) := rfl
  have hR : (c7Joint.quaternion).re = 1 := rfl
  rw [hL, hR] at hre
  have h180 : rad 180 / 2 = Real.pi / 2 := by unfold rad; ring
  have h0 : rad 0 / 2 = 0 := by unfold rad; ring
  rw [h180, h0, Real.cos_pi_div_two, Real.sin_zero, Real.cos_zero] at hre
  norm_num at hre

/-- Claim C7 (amended): evaluation is a pure function of the skeleton
and the frame row — in this functional model it leaves the frame
matrix untouched by construction — and it preserves the entire
structural content of the joint tree (name, offset, channel list,
channel order, bone length, child topology); what it rewrites are
exactly the per-joint pose outputs (quaternion, and position for the
root), which live on the joint objects, so the tree is not left fully
unchanged (see the counterexample). -/
theorem c7_amended_structure_preserved (j : Joint) (row : List ℝ) (idx : ℕ)
    (isRoot : Bool) :
    stripPose (transformJoint j row idx isRoot).1 = stripPose j :=
  transformJoint_stripPose j row idx isRoot

theorem setI_length (l : List ℝ) (i : ℤ) (v : ℝ) :
    (setI l i v).length = l.length := by
  unfold setI
  split <;> simp

theorem getIOpt_setI_ne (l : List ℝ) (i j : ℤ) (v : ℝ) (h : j ≠ i) :
    getIOpt (setI l i v) j = getIOpt l j := by
  unfold getIOpt setI
  by_cases hi : 0 ≤ i
  · by_cases hj : 0 ≤ j
    · simp only [hi, hj, if_true]
      exact List.getElem?_set_ne (by omega)
    · simp [hi, hj]
  · simp [hi]

theorem getIOpt_setI_getI (l l2 : List ℝ) (i : ℤ) (hlen : l2.length = l.length) :
    getIOpt (setI l2 i (getI l i)) i = getIOpt l i := by
  unfold getIOpt setI getI
  by_cases h0 : 0 ≤ i
  · simp only [h0, if_true]
    by_cases hlt : i.toNat < l.length
    · rw [List.getElem?_set_self (by omega), List.getD_eq_getElem l 0 hlt,
        List.getElem?_eq_getElem hlt]
    · rw [List.set_eq_of_length_le (by omega),
        List.getElem?_eq_none_iff.mpr (by omega),
        List.getElem?_eq_none_iff.mpr (by omega)]
  · simp [h0]

/-- Claim C1: for every frame of clip B, the alignment loop rewrites
only the six root position / rotation channel columns: every column at
an index different from all six is unchanged, and the vertical (Y)
position column holds exactly its original per-frame value (the code
writes `currentPos.y`, read from the frame before any write, back into
the Y column).  The hypotheses say that the Y-position column is not
also one of the rotation columns, which holds for every genuine root
channel layout; the columns are compared through `getIOpt`, whose
`none` covers the absent-column (-1 or out-of-range) cases. -/
theorem c1_align_touches_only_root_columns (r : RootIdx) (pB pA : Vec3)
    (dq : Quat) (orderB : List Char) (frame : List ℝ)
    (hyx : r.yPos ≠ r.xRot) (hyy : r.yPos ≠ r.yRot) (hyz : r.yPos ≠ r.zRot) :
    (∀ j : ℤ, j ≠ r.xPos → j ≠ r.yPos → j ≠ r.zPos →
        j ≠ r.xRot → j ≠ r.yRot → j ≠ r.zRot →
      getIOpt (alignFrame r pB pA dq orderB frame) j = getIOpt frame j) ∧
    getIOpt (alignFrame r pB pA dq orderB frame) r.yPos =
      getIOpt frame r.yPos := by
  constructor
  · intro j h1 h2 h3 h4 h5 h6
    simp only [alignFrame]
    rw [getIOpt_setI_ne _ _ _ _ h6, getIOpt_setI_ne _ _ _ _ h5,
      getIOpt_setI_ne _ _ _ _ h4, getIOpt_setI_ne _ _ _ _ h2,
      getIOpt_setI_ne _ _ _ _ h3, getIOpt_setI_ne _ _ _ _ h1]
  · simp only [alignFrame]
    rw [getIOpt_setI_ne _ _ _ _ hyz, getIOpt_setI_ne _ _ _ _ hyy,
      getIOpt_setI_ne _ _ _ _ hyx]
    have hy : (posOf frame r).y = getI frame r.yPos := rfl
    rw [hy]
    exact getIOpt_setI_getI _ _ _ (by simp [setI_length])

/-- Witness for C1 on a seven-column frame with the standard root
layout (positions 0-2, rotations 3-5): column 6 is untouched and the
Y-position column keeps its original value. -/
theorem c1_align_touches_only_root_columns_witness :
    getIOpt (alignFrame ⟨0, 1, 2, 3, 4, 5⟩ ⟨0, 0, 0⟩ ⟨0, 0, 0⟩ ⟨1, 0, 0, 0⟩
        ['Y', 'X', 'Z'] [10, 20, 30, 40, 50, 60, 70]) 6 =
      getIOpt [10, 20, 30, 40, 50, 60, 70] 6 ∧
    getIOpt (alignFrame ⟨0, 1, 2, 3, 4, 5⟩ ⟨0, 0, 0⟩ ⟨0, 0, 0⟩ ⟨1, 0, 0, 0⟩
        ['Y', 'X', 'Z'] [10, 20, 30, 40, 50, 60, 70]) 1 =
      getIOpt [10, 20, 30, 40, 50, 60, 70] 1 :=
  ⟨(c1_align_touches_only_root_columns ⟨0, 1, 2, 3, 4, 5⟩ ⟨0, 0, 0⟩ ⟨0, 0, 0⟩
      ⟨1, 0, 0, 0⟩ ['Y', 'X', 'Z'] [10, 20, 30, 40, 50, 60, 70]
      (by decide) (by decide) (by decide)).1 6
      (by decide) (by decide) (by decide) (by decide) (by decide) (by decide),
   (c1_align_touches_only_root_columns ⟨0, 1, 2, 3, 4, 5⟩ ⟨0, 0, 0⟩ ⟨0, 0, 0⟩
      ⟨1, 0, 0, 0⟩ ['Y', 'X', 'Z'] [10, 20, 30, 40, 50, 60, 70]
      (by decide) (by decide) (by decide)).2⟩

/-- A yaw-only Euler rebuild through the fixed Y-X-Z order is the pure
y-axis rotation quaternion. -/
theorem setFromEulerStr_yaw (θ : ℝ) :
    setFromEulerStr 0 θ 0 ['Y', 'X', 'Z'] =
      ⟨Real.cos (θ / 2), 0, Real.sin (θ / 2), 0⟩ := by
  simp only [setFromEulerStr, parseOrder, setFromEulerO]
  norm_num

theorem anchorYaw_normSq (frame : List ℝ) (r : RootIdx) (order : List Char) :
    Quaternion.normSq (anchorYaw frame r order) = 1 := by
  unfold anchorYaw
  rw [setFromEulerStr_yaw, Quaternion.normSq_def']
  norm_num [Real.cos_sq_add_sin_sq]

theorem inv_eq_star_of_normSq_one (q : Quat) (h : Quaternion.normSq q = 1) :
    q⁻¹ = star q := by
  rw [Quaternion.instInv_inv, h]
  simp

/-- Claim C2: the aligner's delta rotation is exactly
anchor-A-yaw · (anchor-B-yaw)⁻¹, where each anchor yaw is produced by
the pipeline the claim describes and `anchorYaw` embeds: convert the
anchor's root rotation channels (clip A last frame, clip B first
frame in `stitch_motion`) to a quaternion in the root's own declared
channel order, re-decompose through the fixed Y-X-Z Euler extraction,
zero the pitch and roll components, and rebuild.  The code multiplies
by THREE `invert()` — the conjugate — which coincides with the true
inverse because the yaw quaternion is a unit quaternion. -/
theorem c2_delta_is_yawA_mul_inv_yawB (lastFrameA firstFrameB : List ℝ)
    (r : RootIdx) (orderA orderB : List Char) :
    deltaQuatOf lastFrameA firstFrameB r orderA orderB =
      anchorYaw lastFrameA r orderA * (anchorYaw firstFrameB r orderB)⁻¹ := by
  unfold deltaQuatOf
  rw [inv_eq_star_of_normSq_one _ (anchorYaw_normSq _ _ _)]

theorem mentionsAll_append (a b : List Instr) :
    mentionsAll (a ++ b) = mentionsAll a ++ mentionsAll b := by
  induction a with
  | nil => simp [mentionsAll]
  | cons ins rest ih => simp [mentionsAll, ih]

theorem nodup_insert_fresh (L1 L2 : List ℕ) (n : ℕ)
    (hnd : (L1 ++ L2).Nodup) (hlt : ∀ m ∈ L1 ++ L2, m < n) :
    (L1 ++ n :: L2).Nodup := by
  rw [List.nodup_middle, List.nodup_cons]
  exact ⟨fun hmem => lt_irrefl n (hlt n hmem), hnd⟩

theorem nodup_drop_middle (L1 M L2 : List ℕ) (h : (L1 ++ (M ++ L2)).Nodup) :
    (L1 ++ L2).Nodup :=
  List.Nodup.sublist (List.Sublist.append_left (List.sublist_append_right M L2) L1) h

theorem cbmOk_push_lerp (bm : List Instr) (ox oy oz : Option ℕ) (n : ℕ)
    (h : cbmOk bm ox oy oz n) :
    cbmOk (bm ++ [Instr.lerp n]) ox oy oz (n + 1) := by
  obtain ⟨hnd, hlt⟩ := h
  constructor
  · have := nodup_insert_fresh (mentionsAll bm)
      (ox.toList ++ (oy.toList ++ oz.toList)) n hnd hlt
    simpa [mentionsAll_append, mentionsAll, mentions] using this
  · intro m hm
    by_cases hmn : m = n
    · omega
    · refine Nat.lt_succ_of_lt (hlt m ?_)
      simp only [mentionsAll_append, mentionsAll, mentions, List.mem_append,
        List.mem_cons, List.not_mem_nil, or_false, List.mem_singleton,
        Option.toList_some] at hm ⊢
      tauto

theorem cbmOk_set_rotX (bm : List Instr) (ox oy oz : Option ℕ) (n : ℕ)
    (h : cbmOk bm ox oy oz n) : cbmOk bm (some n) oy oz (n + 1) := by
  obtain ⟨hnd, hlt⟩ := h
  constructor
  · have h1 : (mentionsAll bm ++ (oy.toList ++ oz.toList)).Nodup :=
      nodup_drop_middle _ ox.toList _ hnd
    have := nodup_insert_fresh (mentionsAll bm) (oy.toList ++ oz.toList) n h1
      (fun m hm => hlt m (by
        simp only [List.mem_append] at hm ⊢
        tauto))
    simpa using this
  · intro m hm
    by_cases hmn : m = n
    · omega
    · refine Nat.lt_succ_of_lt (hlt m ?_)
      simp only [mentionsAll_append, mentionsAll, mentions, List.mem_append,
        List.mem_cons, List.not_mem_nil, or_false, List.mem_singleton,
        Option.toList_some] at hm ⊢
      tauto

theorem cbmOk_set_rotY (bm : List Instr) (ox oy oz : Option ℕ) (n : ℕ)
    (h : cbmOk bm ox oy oz n) : cbmOk bm ox (some n) oz (n + 1) := by
  obtain ⟨hnd, hlt⟩ := h
  constructor
  · have h1 : ((mentionsAll bm ++ ox.toList) ++ oz.toList).Nodup :=
      nodup_drop_middle (mentionsAll bm ++ ox.toList) oy.toList oz.toList
        (by simpa [List.append_assoc] using hnd)
    have := nodup_insert_fresh (mentionsAll bm ++ ox.toList) oz.toList n h1
      (fun m hm => hlt m (by
        simp only [List.mem_append] at hm ⊢
        tauto))
    simpa [List.append_assoc] using this
  · intro m hm
    by_cases hmn : m = n
    · omega
    · refine Nat.lt_succ_of_lt (hlt m ?_)
      simp only [List.mem_append, List.mem_cons, List.not_mem_nil, or_false,
        List.mem_singleton, Option.toList_some] at hm ⊢
      tauto

theorem cbmOk_set_rotZ (bm : List Instr) (ox oy oz : Option ℕ) (n : ℕ)
    (h : cbmOk bm ox oy oz n) : cbmOk bm ox oy (some n) (n + 1) := by
  obtain ⟨hnd, hlt⟩ := h
  constructor
  · have h1 : (((mentionsAll bm ++ ox.toList) ++ oy.toList) ++ []).Nodup :=
      nodup_drop_middle ((mentionsAll bm ++ ox.toList) ++ oy.toList) oz.toList []
        (by simpa [List.append_assoc] using hnd)
    have := nodup_insert_fresh ((mentionsAll bm ++ ox.toList) ++ oy.toList) [] n h1
      (fun m hm => hlt m (by
        simp only [List.mem_append, List.not_mem_nil, or_false] at hm ⊢
        tauto))
    simpa [List.append_assoc] using this
  · intro m hm
    by_cases hmn : m = n
    · omega
    · refine Nat.lt_succ_of_lt (hlt m ?_)
      simp only [List.mem_append, List.mem_cons, List.not_mem_nil, or_false,
        List.mem_singleton, Option.toList_some] at hm ⊢
      tauto

theorem cbmOk_bump (bm : List Instr) (ox oy oz : Option ℕ) (n : ℕ)
    (h : cbmOk bm ox oy oz n) : cbmOk bm ox oy oz (n + 1) :=
  ⟨h.1, fun m hm => Nat.lt_succ_of_lt (h.2 m hm)⟩

theorem cbmOk_drop_opts (bm : List Instr) (ox oy oz : Option ℕ) (n : ℕ)
    (h : cbmOk bm ox oy oz n) : cbmOk bm none none none n := by
  obtain ⟨hnd, hlt⟩ := h
  refine ⟨?_, ?_⟩
  · simpa using hnd.of_append_left
  · intro m hm
    simp only [Option.toList_none, List.append_nil] at hm
    exact hlt m (by simp only [List.mem_append]; tauto)

theorem cbmOk_push_slerp (bm : List Instr) (ox oy oz : Option ℕ) (n : ℕ)
    (co : List Char) (h : cbmOk bm ox oy oz n) :
    cbmOk (bm ++ [Instr.slerp ox oy oz co]) none none none n := by
  obtain ⟨hnd, hlt⟩ := h
  constructor
  · simpa [mentionsAll_append, mentionsAll, mentions, List.append_assoc] using hnd
  · intro m hm
    refine hlt m ?_
    simpa [mentionsAll_append, mentionsAll, mentions, List.append_assoc] using hm

theorem cbmStep_okT (st : List Instr × Option ℕ × Option ℕ × Option ℕ × Bool × ℕ)
    (ch : String) (h : cbmOkT st) : cbmOkT (cbmStep st ch) := by
  obtain ⟨bm, ox, oy, oz, hr, n⟩ := st
  simp only [cbmOkT] at h ⊢
  by_cases hp : isPositionChannel ch = true
  · simpa [cbmStep, hp] using cbmOk_push_lerp _ _ _ _ _ h
  · by_cases hq : isRotationChannel ch = true
    · by_cases hX : (firstCharD ch).toUpper = 'X'
      · simpa [cbmStep, hp, hq, hX] using cbmOk_set_rotX _ _ _ _ _ h
      · by_cases hY : (firstCharD ch).toUpper = 'Y'
        · simpa [cbmStep, hp, hq, hY] using cbmOk_set_rotY _ _ _ _ _ h
        · by_cases hZ : (firstCharD ch).toUpper = 'Z'
          · simpa [cbmStep, hp, hq, hZ] using cbmOk_set_rotZ _ _ _ _ _ h
          · simpa [cbmStep, hp, hq, hX, hY, hZ] using cbmOk_bump _ _ _ _ _ h
    · simpa [cbmStep, hp, hq] using h

theorem cbmFold_okT (chs : List String) :
    ∀ st, cbmOkT st → cbmOkT (chs.foldl cbmStep st) := by
  induction chs with
  | nil => intro st h; simpa using h
  | cons ch rest ih => intro st h; simpa using ih _ (cbmStep_okT st ch h)

mutual

theorem createBlendMapJoint_ok (j : Joint) (bm : List Instr) (n : ℕ)
    (h : cbmOk bm none none none n) :
    cbmOk (createBlendMapJoint j bm n).1 none none none
      (createBlendMapJoint j bm n).2 := by
  cases j with
  | node nm o chs co l p q cs =>
    simp only [createBlendMapJoint]
    have hscan : cbmOkT (chs.foldl cbmStep (bm, none, none, none, false, n)) :=
      cbmFold_okT chs _ (by simpa [cbmOkT] using h)
    by_cases hrot : (chs.foldl cbmStep (bm, none, none, none, false, n)).2.2.2.2.1 = true
    · simp only [hrot, if_true]
      exact createBlendMapChildren_ok cs _ _ (cbmOk_push_slerp _ _ _ _ _ _ hscan)
    · simp only [Bool.not_eq_true] at hrot
      simp only [hrot, Bool.false_eq_true, if_false]
      exact createBlendMapChildren_ok cs _ _ (cbmOk_drop_opts _ _ _ _ _ hscan)

theorem createBlendMapChildren_ok (cs : List Joint) (bm : List Instr) (n : ℕ)
    (h : cbmOk bm none none none n) :
    cbmOk (createBlendMapChildren cs bm n).1 none none none
      (createBlendMapChildren cs bm n).2 := by
  cases cs with
  | nil => simpa [createBlendMapChildren] using h
  | cons j js =>
    simp only [createBlendMapChildren]
    exact createBlendMapChildren_ok js _ _ (createBlendMapJoint_ok j bm n h)

end

/-- Every blend map generated from a skeleton targets pairwise
distinct column indices. -/
theorem createBlendMap_nodup (rootA : Joint) :
    (mentionsAll (createBlendMap rootA)).Nodup := by
  have h0 : cbmOk [] none none none 0 := by
    constructor <;> simp [mentionsAll]
  have h1 := createBlendMapJoint_ok rootA [] 0 h0
  simpa [createBlendMap] using h1.1

theorem writeO_length (nf : List ℝ) (o : Option ℕ) (v : ℝ) :
    (writeO nf o v).length = nf.length := by
  cases o <;> simp [writeO]

theorem applyInstr_length (startFrame endFrame : List ℝ) (t : ℝ) (nf : List ℝ)
    (ins : Instr) :
    (applyInstr startFrame endFrame t nf ins).length = nf.length := by
  cases ins with
  | lerp i => simp [applyInstr]
  | slerp ox oy oz ord => simp [applyInstr, writeO_length]

theorem writeO_getElem?_ne (nf : List ℝ) (o : Option ℕ) (v : ℝ) (k : ℕ)
    (h : k ∉ o.toList) :
    (writeO nf o v)[k]? = nf[k]? := by
  cases o with
  | none => rfl
  | some i =>
    simp only [Option.toList_some, List.mem_singleton] at h
    simp only [writeO]
    exact List.getElem?_set_ne (Ne.symm h)

theorem applyInstr_getElem?_not_mentioned (startFrame endFrame : List ℝ) (t : ℝ)
    (nf : List ℝ) (ins : Instr) (k : ℕ) (h : k ∉ mentions ins) :
    (applyInstr startFrame endFrame t nf ins)[k]? = nf[k]? := by
  cases ins with
  | lerp i =>
    simp only [mentions, List.mem_singleton] at h
    simp only [applyInstr]
    exact List.getElem?_set_ne (Ne.symm h)
  | slerp ox oy oz ord =>
    simp only [mentions, List.mem_append] at h
    push_neg at h
    simp only [applyInstr]
    rw [writeO_getElem?_ne _ _ _ _ h.2, writeO_getElem?_ne _ _ _ _ h.1.2,
      writeO_getElem?_ne _ _ _ _ h.1.1]

theorem foldApply_not_mentioned (startFrame endFrame : List ℝ) (t : ℝ)
    (bm : List Instr) :
    ∀ nf k, k ∉ mentionsAll bm →
      (bm.foldl (applyInstr startFrame endFrame t) nf)[k]? = nf[k]? := by
  induction bm with
  | nil => intro nf k _; rfl
  | cons ins rest ih =>
    intro nf k h
    simp only [mentionsAll, List.mem_append] at h
    push_neg at h
    simp only [List.foldl_cons]
    rw [ih _ k h.2, applyInstr_getElem?_not_mentioned _ _ _ _ _ _ h.1]

theorem mem_mentionsAll_of_lerp (bm : List Instr) (k : ℕ)
    (h : Instr.lerp k ∈ bm) : k ∈ mentionsAll bm := by
  induction bm with
  | nil => simp at h
  | cons ins rest ih =>
    rcases List.mem_cons.mp h with rfl | h2
    · simp [mentionsAll, mentions]
    · simp only [mentionsAll, List.mem_append]
      exact Or.inr (ih h2)

theorem foldApply_lerp (startFrame endFrame : List ℝ) (t : ℝ) (bm : List Instr) :
    ∀ nf k, Instr.lerp k ∈ bm → (mentionsAll bm).Nodup → k < nf.length →
      (bm.foldl (applyInstr startFrame endFrame t) nf)[k]? =
        some (startFrame.getD k 0 +
          (endFrame.getD k 0 - startFrame.getD k 0) * t) := by
  induction bm with
  | nil => intro nf k h _ _; simp at h
  | cons ins rest ih =>
    intro nf k hmem hnd hk
    simp only [List.foldl_cons]
    have hnds : (mentions ins).Nodup ∧ (mentionsAll rest).Nodup ∧
        (mentions ins).Disjoint (mentionsAll rest) := by
      rw [← List.nodup_append]
      simpa [mentionsAll] using hnd
    by_cases hkins : k ∈ mentions ins
    · have hknotrest : k ∉ mentionsAll rest := hnds.2.2 hkins
      have hins : ins = Instr.lerp k := by
        cases ins with
        | lerp i =>
          simp only [mentions, List.mem_singleton] at hkins
          rw [hkins]
        | slerp ox oy oz ord =>
          have h2 : Instr.lerp k ∈ rest := by
            rcases List.mem_cons.mp hmem with hcon | h2
            · exact absurd hcon (by simp)
            · exact h2
          exact absurd (mem_mentionsAll_of_lerp rest k h2) hknotrest
      subst hins
      rw [foldApply_not_mentioned _ _ _ rest _ k hknotrest]
      simp only [applyInstr]
      exact List.getElem?_set_self hk
    · have h2 : Instr.lerp k ∈ rest := by
        rcases List.mem_cons.mp hmem with rfl | h2
        · exact absurd (by simp [mentions]) hkins
        · exact h2
      rw [ih _ k h2 hnds.2.1 (by rw [applyInstr_length]; exact hk)]

/-- Claim C3: for every blend step i = 1..N (N the duration-derived
blend frame count), the parameter t = i/(N+1) is strictly inside
(0, 1); every column targeted by a lerp instruction of the blend map
holds valA + (valB - valA)·t, with valA / valB the corresponding
columns of the two endpoint frames (clip A last frame and aligned
clip B first frame in `stitch_motion`); and with a single blend frame
(N = 1) the lerped column is the midpoint average of the endpoints.
Distinctness of the blend-map column indices
(`createBlendMap_nodup`) guarantees no later instruction overwrites
the lerped column. -/
theorem c3_blend_lerp_columns (rootA : Joint) (startFrame endFrame : List ℝ)
    (ft1 : ℝ) (i k : ℕ)
    (h1 : 1 ≤ i) (h2 : i ≤ BLEND_FRAMES ft1)
    (hmem : Instr.lerp k ∈ createBlendMap rootA)
    (hk : k < startFrame.length) :
    (0 < blendParam i (BLEND_FRAMES ft1) ∧ blendParam i (BLEND_FRAMES ft1) < 1) ∧
    (blendFrame (createBlendMap rootA) startFrame endFrame
        (blendParam i (BLEND_FRAMES ft1)))[k]? =
      some (startFrame.getD k 0 +
        (endFrame.getD k 0 - startFrame.getD k 0) *
          blendParam i (BLEND_FRAMES ft1)) ∧
    (BLEND_FRAMES ft1 = 1 →
      (blendFrame (createBlendMap rootA) startFrame endFrame
          (blendParam i (BLEND_FRAMES ft1)))[k]? =
        some ((startFrame.getD k 0 + endFrame.getD k 0) / 2)) := by
  have hval : ∀ t : ℝ,
      (blendFrame (createBlendMap rootA) startFrame endFrame t)[k]? =
        some (startFrame.getD k 0 +
          (endFrame.getD k 0 - startFrame.getD k 0) * t) := by
    intro t
    unfold blendFrame
    exact foldApply_lerp _ _ _ _ _ _ hmem (createBlendMap_nodup rootA)
      (by simpa using hk)
  refine ⟨⟨?_, ?_⟩, hval _, ?_⟩
  · exact div_pos (by exact_mod_cast h1) (by positivity)
  · unfold blendParam
    rw [div_lt_one (by positivity)]
    have : (i : ℝ) < (BLEND_FRAMES ft1 : ℝ) + 1 := by exact_mod_cast Nat.lt_succ_of_le h2
    exact this
  · intro hN
    rw [hval _]
    congr 1
    have hi : i = 1 := le_antisymm (hN ▸ h2) h1
    subst hi
    rw [hN]
    unfold blendParam
    push_cast
    ring

/-- Witness for C3: one blend frame between a clip ending at 2 and one
starting at 4; the lerped column is their midpoint 3 = 2 + (4-2)/2. -/
theorem c3_blend_lerp_columns_witness :
    (0 < blendParam 1 (BLEND_FRAMES 1) ∧ blendParam 1 (BLEND_FRAMES 1) < 1) ∧
    (blendFrame (createBlendMap c3Root) [2] [4]
        (blendParam 1 (BLEND_FRAMES 1)))[0]? =
      some ((2 : ℝ) + ((4 : ℝ) - 2) * blendParam 1 (BLEND_FRAMES 1)) ∧
    (BLEND_FRAMES 1 = 1 →
      (blendFrame (createBlendMap c3Root) [2] [4]
          (blendParam 1 (BLEND_FRAMES 1)))[0]? =
        some (((2 : ℝ) + 4) / 2)) :=
  c3_blend_lerp_columns c3Root [2] [4] 1 1 0 (by decide)
    (by simp [BLEND_FRAMES, MIX_DURATION]) (by decide) (by decide)

/-- Claim C10: in every generated blend frame, a column targeted by no
blend-map instruction (in the source: a channel whose name contains
neither "position" nor "rotation" receives no instruction — indeed
such a channel does not even advance the blend-map channel counter)
keeps the initial fill value 0, for every parameter t and regardless
of that column in either endpoint frame. -/
theorem c10_untargeted_columns_zero (rootA : Joint)
    (startFrame endFrame : List ℝ) (t : ℝ) (j : ℕ)
    (hj : j ∉ mentionsAll (createBlendMap rootA))
    (hlen : j < startFrame.length) :
    (blendFrame (createBlendMap rootA) startFrame endFrame t)[j]? = some 0 := by
  unfold blendFrame
  rw [foldApply_not_mentioned _ _ _ _ _ _ hj]
  simp [List.getElem?_replicate, hlen]

/-- Witness for C10: column 1 (the Xscale channel) of the blend frame
is 0 although the endpoint frames hold 7 and 9 there. -/
theorem c10_untargeted_columns_zero_witness :
    (blendFrame (createBlendMap c10Root) [5, 7] [6, 9] (1 / 2))[1]? = some 0 :=
  c10_untargeted_columns_zero c10Root [5, 7] [6, 9] (1 / 2) 1 (by decide) (by decide)

theorem blendFramesList_length (bm : List Instr) (s e : List ℝ) (N : ℕ) :
    (blendFramesList bm s e N).length = N := by
  simp [blendFramesList]

/-- Claim C5: the stitched frame matrix is the concatenation, in
order, of clip A frames, the N generated blend frames, and the aligned
clip B frames; the returned frame count is the sum of the three
section lengths; and the returned frame_time is clip A frame_time when
the two clip frame times agree and the sentinel -1 (the "mismatched
rate" value) otherwise.  The indexed equations pin the three sections
to their positions in the stitched matrix. -/
theorem c5_stitch_concatenation (rootA rootB : Joint) (fc1 fc2 : ℤ)
    (ft1 ft2 : ℝ) (f1 f2 : List (List ℝ)) :
    (stitch_motion rootA rootB (fc1, ft1, f1) (fc2, ft2, f2)).2.2 =
      f1 ++ stitchBlend rootA rootB ft1 f1 f2 ++
        stitchAligned rootA rootB f1 f2 ∧
    (stitchBlend rootA rootB ft1 f1 f2).length = BLEND_FRAMES ft1 ∧
    (stitch_motion rootA rootB (fc1, ft1, f1) (fc2, ft2, f2)).1 =
      f1.length + BLEND_FRAMES ft1 + f2.length ∧
    (stitch_motion rootA rootB (fc1, ft1, f1) (fc2, ft2, f2)).2.1 =
      (if ft1 = ft2 then ft1 else -1) ∧
    (∀ i < f1.length,
      (stitch_motion rootA rootB (fc1, ft1, f1) (fc2, ft2, f2)).2.2[i]? =
        f1[i]?) ∧
    (∀ j < BLEND_FRAMES ft1,
      (stitch_motion rootA rootB (fc1, ft1, f1) (fc2, ft2, f2)).2.2[f1.length + j]? =
        (stitchBlend rootA rootB ft1 f1 f2)[j]?) ∧
    (∀ m < f2.length,
      (stitch_motion rootA rootB (fc1, ft1, f1)
          (fc2, ft2, f2)).2.2[f1.length + BLEND_FRAMES ft1 + m]? =
        (stitchAligned rootA rootB f1 f2)[m]?) := by
  have hfr : (stitch_motion rootA rootB (fc1, ft1, f1) (fc2, ft2, f2)).2.2 =
      f1 ++ stitchBlend rootA rootB ft1 f1 f2 ++
        stitchAligned rootA rootB f1 f2 := rfl
  have hbl : (stitchBlend rootA rootB ft1 f1 f2).length = BLEND_FRAMES ft1 :=
    blendFramesList_length _ _ _ _
  have hal : (stitchAligned rootA rootB f1 f2).length = f2.length := by
    simp [stitchAligned]
  refine ⟨hfr, hbl, ?_, rfl, ?_, ?_, ?_⟩
  · show (f1 ++ stitchBlend rootA rootB ft1 f1 f2 ++
      stitchAligned rootA rootB f1 f2).length = _
    simp [hbl, hal]
    omega
  · intro i hi
    rw [hfr, List.getElem?_append_left (by simp only [List.length_append]; omega),
      List.getElem?_append_left hi]
  · intro j hj
    rw [hfr,
      List.getElem?_append_left (by simp only [List.length_append, hbl]; omega),
      List.getElem?_append_right (by omega), Nat.add_sub_cancel_left]
  · intro m hm
    rw [hfr,
      List.getElem?_append_right (by simp only [List.length_append, hbl]; omega)]
    have hlen2 : (f1 ++ stitchBlend rootA rootB ft1 f1 f2).length =
        f1.length + BLEND_FRAMES ft1 := by simp [hbl]
    rw [hlen2, Nat.add_sub_cancel_left]

/-- Witness for C5 on two one-frame, one-column clips with equal frame
times. -/
theorem c5_stitch_concatenation_witness :
    (stitch_motion c3Root c3Root (1, 1, [[2]]) (1, 1, [[4]])).2.2 =
      [[(2 : ℝ)]] ++ stitchBlend c3Root c3Root 1 [[2]] [[4]] ++
        stitchAligned c3Root c3Root [[2]] [[4]] ∧
    (stitch_motion c3Root c3Root (1, 1, [[2]]) (1, 1, [[4]])).2.2[0]? =
      some [(2 : ℝ)] ∧
    (stitch_motion c3Root c3Root (1, 1, [[2]]) (1, 1, [[4]])).2.1 = 1 := by
  have h := c5_stitch_concatenation c3Root c3Root 1 1 1 1 [[2]] [[4]]
  refine ⟨h.1, ?_, ?_⟩
  · have := h.2.2.2.2.1 0 (by decide)
    simpa using this
  · rw [h.2.2.2.1]
    simp

theorem allocList_read_lt (rows : List (List ℝ)) :
    ∀ (s : Store) (r : Ref), r < s.rows.length →
      (allocList s rows).1.read r = s.read r := by
  induction rows with
  | nil => intro s r _; rfl
  | cons row rest ih =>
    intro s r hr
    have hr2 : r < (s.alloc row).1.rows.length := by
      show r < (s.rows ++ [row]).length
      rw [List.length_append]
      exact lt_of_lt_of_le hr (Nat.le_add_right _ _)
    simp only [allocList]
    rw [ih _ r hr2]
    simp only [Store.read, Store.alloc]
    exact List.getD_append _ _ _ _ hr

theorem allocList_length_le (rows : List (List ℝ)) :
    ∀ s : Store, s.rows.length ≤ (allocList s rows).1.rows.length := by
  induction rows with
  | nil => intro s; exact le_refl _
  | cons row rest ih =>
    intro s
    calc s.rows.length ≤ (s.alloc row).1.rows.length := by simp [Store.alloc]
    _ ≤ _ := ih _

theorem allocList_refs_ge (rows : List (List ℝ)) :
    ∀ (s : Store) (rf : Ref), rf ∈ (allocList s rows).2 →
      s.rows.length ≤ rf := by
  induction rows with
  | nil => intro s rf h; simp [allocList] at h
  | cons row rest ih =>
    intro s rf h
    simp only [allocList, List.mem_cons] at h
    rcases h with rfl | h
    · exact le_refl _
    · calc s.rows.length ≤ (s.alloc row).1.rows.length := by simp [Store.alloc]
      _ ≤ rf := ih _ _ h

theorem write_read_ne (s : Store) (r r' : Ref) (row : List ℝ) (h : r' ≠ r) :
    (s.write r row).read r' = s.read r' := by
  simp only [Store.write, Store.read, List.getD_eq_getElem?_getD]
  rw [List.getElem?_set_ne (Ne.symm h)]

theorem alignRefs_read_not_mem (rp : RootIdx) (pB pA : Vec3) (dq : Quat)
    (ordB : List Char) (refs : List Ref) :
    ∀ (s : Store) (r : Ref), (∀ rf ∈ refs, r ≠ rf) →
      (alignRefs rp pB pA dq ordB s refs).read r = s.read r := by
  induction refs with
  | nil => intro s r _; rfl
  | cons ref rest ih =>
    intro s r h
    simp only [alignRefs, List.foldl_cons]
    have h1 := ih (s.write ref (alignFrame rp pB pA dq ordB (s.read ref))) r
      (fun rf hrf => h rf (List.mem_cons_of_mem _ hrf))
    rw [show (alignRefs rp pB pA dq ordB
        (s.write ref (alignFrame rp pB pA dq ordB (s.read ref))) rest) =
        rest.foldl (fun s ref => s.write ref
          (alignFrame rp pB pA dq ordB (s.read ref)))
          (s.write ref (alignFrame rp pB pA dq ordB (s.read ref))) from rfl] at h1
    rw [h1, write_read_ne _ _ _ _ (h ref (List.mem_cons_self _ _))]

theorem alignRefs_length (rp : RootIdx) (pB pA : Vec3) (dq : Quat)
    (ordB : List Char) (refs : List Ref) :
    ∀ s : Store, (alignRefs rp pB pA dq ordB s refs).rows.length =
      s.rows.length := by
  induction refs with
  | nil => intro s; rfl
  | cons ref rest ih =>
    intro s
    simp only [alignRefs, List.foldl_cons] at ih ⊢
    rw [ih]
    simp [Store.write]

/-- Claim C8: stitching does not modify either input clip frame
matrix.  In the row-store model every row of clips A and B (any valid
row reference) holds exactly the same values after `stitchHeap` as
before: the aligning transform writes only the rows freshly allocated
by the JSON deep copy of clip B, clip A rows enter the stitched result
by reference without being written, and the blend rows are fresh
allocations. -/
theorem c8_stitch_preserves_input_rows (rootA rootB : Joint) (ft1 : ℝ)
    (s : Store) (f1 f2 : List Ref)
    (hvalid : ∀ rf ∈ f1 ++ f2, rf < s.rows.length) :
    ∀ rf ∈ f1 ++ f2,
      (stitchHeap rootA rootB ft1 s f1 f2).1.read rf = s.read rf := by
  intro rf hrf
  have hlt : rf < s.rows.length := hvalid rf hrf
  have hcopyLen : s.rows.length ≤ (allocList s (f2.map s.read)).1.rows.length :=
    allocList_length_le _ _
  have hne : ∀ c ∈ (allocList s (f2.map s.read)).2, rf ≠ c := by
    intro c hc heq
    have hge := allocList_refs_ge _ _ _ hc
    exact absurd hge (not_le.mpr (heq ▸ hlt))
  simp only [stitchHeap, deepCopy]
  rw [allocList_read_lt _ _ _
      (by rw [alignRefs_length]; exact lt_of_lt_of_le hlt hcopyLen),
    alignRefs_read_not_mem _ _ _ _ _ _ _ _ hne,
    allocList_read_lt _ _ _ hlt]

/-- Witness for C8 on a two-row store holding one-frame clips A and B. -/
theorem c8_stitch_preserves_input_rows_witness :
    (stitchHeap (newJoint "A") (newJoint "B") 1 ⟨[[1], [2]]⟩ [0] [1]).1.read 0 =
      (⟨[[1], [2]]⟩ : Store).read 0 :=
  c8_stitch_preserves_input_rows (newJoint "A") (newJoint "B") 1 ⟨[[1], [2]]⟩
    [0] [1] (by decide) 0 (by decide)

end
